import Mathlib

/-!
# Verification of the iLayer RFQ playground core

Shallow embedding of the protocol-and-pricing core of the RFQ playground
(`types/index.ts`, `utils/utils.service.ts`, `solver/solver.service.ts`,
`user/user.service.ts`) together with theorems settling the frozen claims.

Modelling conventions:
* JavaScript numbers are modelled as `ℚ`.  Every numeric value exercised by the
  claims is exactly representable in binary floating point and all operations
  on them are exact, so the rational model agrees with the float semantics on
  the verified scenarios.
* Byte strings are `List Nat` (each entry a byte value).
* `Math.random()` is modelled as an ambient stream `rands : Nat → ℚ` of draws,
  and the sequence of `getRandomFeePercentage()` call results inside
  `computeUpdatedToTokens` is modelled by an explicit per-call index `k`
  threaded through the recursion (the source iterates with `Array.map`, making
  one fresh draw per priced token, in list order).
* Fallible JavaScript code (thrown `TypeError`/protobuf decode errors) is
  modelled with `Except`.
-/

namespace Rfq

/-! ## Data model (`types/index.ts`) -/

/-- `RequestToken` from `types/index.ts`: a token address with a weight. -/
structure RequestToken where
  address : String
  weight : ℚ
deriving DecidableEq, Repr

/-- One side (`from` / `to`) of a `RequestQuote`. -/
structure ReqSide where
  network : String
  tokens : List RequestToken
deriving DecidableEq, Repr

/-- `RequestQuote` from `types/index.ts`. -/
structure RequestQuote where
  bucket : String
  fromSide : ReqSide
  toSide : ReqSide
deriving DecidableEq, Repr

/-- `ResponseToken` from `types/index.ts`: a token address with an amount. -/
structure ResponseToken where
  address : String
  amount : ℚ
deriving DecidableEq, Repr

/-- One side (`from` / `to`) of a `ResponseQuote`. -/
structure RespSide where
  network : String
  tokens : List ResponseToken
deriving DecidableEq, Repr

/-- `ResponseQuote` from `types/index.ts`. -/
structure ResponseQuote where
  solver : String
  fromSide : RespSide
  toSide : RespSide
deriving DecidableEq, Repr

/-- `Price` from `types/index.ts`: spot price of a token address in USD. -/
structure Price where
  address : String
  price : ℚ
deriving DecidableEq, Repr

/-! ## Pricing helpers (`utils/utils.service.ts`) -/

/-- `UtilsService.extractTokenAddresses`: from-token addresses followed by
to-token addresses, duplicates preserved. -/
def extractTokenAddresses (message : RequestQuote) : List String :=
  message.fromSide.tokens.map (fun t => t.address)
    ++ message.toSide.tokens.map (fun t => t.address)

/-- JavaScript `String.prototype.toLowerCase()`, character-wise (agrees with
the ECMAScript behaviour on the ASCII addresses the system handles). -/
def jsToLower (s : String) : String :=
  ⟨s.data.map Char.toLower⟩

/-- `UtilsService.getPriceForAddress`: first list entry whose address matches
case-insensitively, `undefined` (here `none`) when absent. -/
def getPriceForAddress (prices : List Price) (address : String) : Option ℚ :=
  (prices.find? (fun p => jsToLower p.address == jsToLower address)).map (fun p => p.price)

/-- `minFee` constant inside `UtilsService.getRandomFeePercentage` (0.1%). -/
def minFee : ℚ := 1 / 1000

/-- `maxFee` constant inside `UtilsService.getRandomFeePercentage` (1%). -/
def maxFee : ℚ := 1 / 100

/-- `UtilsService.getRandomFeePercentage`, parametrised by the `Math.random()`
draw `r`: `Math.random() * (maxFee - minFee) + minFee`. -/
def getRandomFeePercentage (r : ℚ) : ℚ :=
  r * (maxFee - minFee) + minFee

/-- `UtilsService.computeUpdatedToTokens`.  The source maps over `toTokens`;
for each token it looks the price up, and on a falsy price (absent, or present
but `0`) yields amount `0`, otherwise computes
`(fromTokenAmountInUSD * weight / 100) / price * (1 - feePercentage)` with a
fresh fee draw.  `fees k` is the result of the `k`-th
`getRandomFeePercentage()` call of this invocation; only priced tokens draw a
fee, which the index threading reproduces. -/
def computeUpdatedToTokens (toTokens : List RequestToken)
    (fromTokenAmountInUSD : ℚ) (prices : List Price)
    (fees : Nat → ℚ) (k : Nat) : List ResponseToken :=
  match toTokens with
  | [] => []
  | t :: rest =>
    match getPriceForAddress prices t.address with
    | none => ⟨t.address, 0⟩ :: computeUpdatedToTokens rest fromTokenAmountInUSD prices fees k
    | some p =>
      if p = 0 then
        ⟨t.address, 0⟩ :: computeUpdatedToTokens rest fromTokenAmountInUSD prices fees k
      else
        let toTokenAmountInUSD := fromTokenAmountInUSD * t.weight / 100
        let toTokenAmount := toTokenAmountInUSD / p
        let feePercentage := fees k
        ⟨t.address, toTokenAmount * (1 - feePercentage)⟩
          :: computeUpdatedToTokens rest fromTokenAmountInUSD prices fees (k + 1)

/-! ## SHA-256 and bucket derivation (`UtilsService.getBucketFromPublicKey`)

The source computes `createHash('sha256').update(wallet.publicKey).digest('hex')`
and takes `substring(0, 8)`.  The node `crypto` hash is embedded here as a full
executable SHA-256 over the UTF-8 bytes of the input string (the `update`
default encoding). -/

/-- UTF-8 encoding of one character. -/
def utf8Bytes (c : Char) : List Nat :=
  let n := c.toNat
  if n < 128 then [n]
  else if n < 2048 then [192 + n / 64, 128 + n % 64]
  else if n < 65536 then [224 + n / 4096, 128 + n / 64 % 64, 128 + n % 64]
  else [240 + n / 262144, 128 + n / 4096 % 64, 128 + n / 64 % 64, 128 + n % 64]

/-- UTF-8 bytes of a string. -/
def strBytes (s : String) : List Nat :=
  (s.data.map utf8Bytes).flatten

/-- 32-bit right rotation. -/
def rotr32 (k n : Nat) : Nat :=
  ((n >>> k) ||| (n <<< (32 - k))) % 4294967296

/-- 32-bit bitwise complement. -/
def not32 (n : Nat) : Nat := 4294967295 ^^^ n

/-- The 64 SHA-256 round constants (FIPS 180-4, written in decimal). -/
def sha256K : List Nat :=
  [1116352408, 1899447441, 3049323471, 3921009573, 961987163,
   1508970993, 2453635748, 2870763221, 3624381080, 310598401,
   607225278, 1426881987, 1925078388, 2162078206, 2614888103,
   3248222580, 3835390401, 4022224774, 264347078, 604807628,
   770255983, 1249150122, 1555081692, 1996064986, 2554220882,
   2821834349, 2952996808, 3210313671, 3336571891, 3584528711,
   113926993, 338241895, 666307205, 773529912, 1294757372,
   1396182291, 1695183700, 1986661051, 2177026350, 2456956037,
   2730485921, 2820302411, 3259730800, 3345764771, 3516065817,
   3600352804, 4094571909, 275423344, 430227734, 506948616,
   659060556, 883997877, 958139571, 1322822218, 1537002063,
   1747873779, 1955562222, 2024104815, 2227730452, 2361852424,
   2428436474, 2756734187, 3204031479, 3329325298]

/-- Initial SHA-256 state words (FIPS 180-4, written in decimal). -/
def sha256H0 : List Nat :=
  [1779033703, 3144134277, 1013904242, 2773480762, 1359893119,
   2600822924, 528734635, 1541459225]

/-- Big-endian bytes of a 32-bit word. -/
def be32 (n : Nat) : List Nat :=
  [n / 16777216 % 256, n / 65536 % 256, n / 256 % 256, n % 256]

/-- Big-endian bytes of a 64-bit word. -/
def be64 (n : Nat) : List Nat :=
  [n / 2 ^ 56 % 256, n / 2 ^ 48 % 256, n / 2 ^ 40 % 256, n / 2 ^ 32 % 256,
   n / 16777216 % 256, n / 65536 % 256, n / 256 % 256, n % 256]

/-- SHA-256 padding: append `0x80`, zeros, and the 64-bit bit length. -/
def sha256Pad (msg : List Nat) : List Nat :=
  msg ++ [128] ++ List.replicate ((64 - (msg.length + 9) % 64) % 64) 0
    ++ be64 (8 * msg.length)

/-- Split a byte list into 64-byte blocks (fueled structural recursion). -/
def chunk64 (fuel : Nat) (l : List Nat) : List (List Nat) :=
  match fuel, l with
  | _, [] => []
  | 0, _ => []
  | fuel + 1, l => l.take 64 :: chunk64 fuel (l.drop 64)

/-- Read a big-endian 32-bit word from 4 bytes. -/
def word32Of (bs : List Nat) : Nat :=
  bs.foldl (fun acc b => acc * 256 + b) 0

/-- The 16 message words of one 64-byte block. -/
def blockWords (block : List Nat) : List Nat :=
  (List.range 16).map (fun i => word32Of ((block.drop (4 * i)).take 4))

/-- SHA-256 message-schedule extension to 64 words. -/
def sha256Schedule (block : List Nat) : List Nat :=
  (List.range 48).foldl
    (fun w i =>
      let s0 := Nat.xor (Nat.xor (rotr32 7 (w.getD (i + 1) 0)) (rotr32 18 (w.getD (i + 1) 0)))
        ((w.getD (i + 1) 0) >>> 3)
      let s1 := Nat.xor (Nat.xor (rotr32 17 (w.getD (i + 14) 0)) (rotr32 19 (w.getD (i + 14) 0)))
        ((w.getD (i + 14) 0) >>> 10)
      w ++ [(w.getD i 0 + s0 + w.getD (i + 9) 0 + s1) % 4294967296])
    (blockWords block)

/-- One SHA-256 compression round. -/
def sha256Round (st : List Nat) (kw : Nat × Nat) : List Nat :=
  let a := st.getD 0 0
  let b := st.getD 1 0
  let c := st.getD 2 0
  let d := st.getD 3 0
  let e := st.getD 4 0
  let f := st.getD 5 0
  let g := st.getD 6 0
  let h := st.getD 7 0
  let s1 := Nat.xor (Nat.xor (rotr32 6 e) (rotr32 11 e)) (rotr32 25 e)
  let ch := Nat.xor (e &&& f) (not32 e &&& g)
  let t1 := (h + s1 + ch + kw.1 + kw.2) % 4294967296
  let s0 := Nat.xor (Nat.xor (rotr32 2 a) (rotr32 13 a)) (rotr32 22 a)
  let mj := Nat.xor (Nat.xor (a &&& b) (a &&& c)) (b &&& c)
  let t2 := (s0 + mj) % 4294967296
  [(t1 + t2) % 4294967296, a, b, c, (d + t1) % 4294967296, e, f, g]

/-- Process one 64-byte block: run 64 rounds and add the result back into the
running state.  The result is always an explicit 8-word list. -/
def sha256Block (h : List Nat) (block : List Nat) : List Nat :=
  let w := sha256Schedule block
  let st := (sha256K.zip w).foldl (fun st kw => sha256Round st (kw.2, kw.1)) h
  [(h.getD 0 0 + st.getD 0 0) % 4294967296,
   (h.getD 1 0 + st.getD 1 0) % 4294967296,
   (h.getD 2 0 + st.getD 2 0) % 4294967296,
   (h.getD 3 0 + st.getD 3 0) % 4294967296,
   (h.getD 4 0 + st.getD 4 0) % 4294967296,
   (h.getD 5 0 + st.getD 5 0) % 4294967296,
   (h.getD 6 0 + st.getD 6 0) % 4294967296,
   (h.getD 7 0 + st.getD 7 0) % 4294967296]

/-- SHA-256 digest (32 bytes) of a byte list. -/
def sha256 (msg : List Nat) : List Nat :=
  let padded := sha256Pad msg
  let final := (chunk64 padded.length padded).foldl sha256Block sha256H0
  (final.map be32).flatten

/-- One lowercase hexadecimal digit: codepoints `0`–`9` for values below ten,
then `a`–`f`. -/
def hexDigit (n : Nat) : Char :=
  if n < 10 then Char.ofNat (48 + n)
  else if n < 16 then Char.ofNat (87 + n)
  else '0'

/-- Lowercase hex rendering of a byte list (`digest('hex')`). -/
def hexOfBytes (bs : List Nat) : String :=
  ⟨(bs.map (fun b => [hexDigit (b / 16), hexDigit (b % 16)])).flatten⟩

/-- The hex SHA-256 digest of a string, as produced by
`createHash('sha256').update(s).digest('hex')`. -/
def sha256HexOfString (s : String) : String :=
  hexOfBytes (sha256 (strBytes s))

/-- JavaScript `String.prototype.substring(0, 8)`: the first 8 characters. -/
def substring08 (s : String) : String :=
  ⟨s.data.take 8⟩

/-- `UtilsService.getBucketFromPublicKey`, as a function of the wallet's
public key string. -/
def getBucketFromPublicKey (publicKey : String) : String :=
  substring08 (sha256HexOfString publicKey)

/-! ## Topic strings

Each definition embeds one topic literal of the source, at the cited line. -/

/-- `UserService.sendRequest`: `contentTopics = ['/iLayer/1/rfq/proto']`. -/
def userSendRequestTopic : String := "/iLayer/1/rfq/proto"

/-- `UserService` constructor: `` contentTopics = [`/iLayer/1/${this.bucket}/proto`] ``. -/
def userListenTopic (bucket : String) : String :=
  "/iLayer/1/" ++ bucket ++ "/proto"

/-- `SolverService` constructor: `contentTopics = ['/iLayer/1/rfq/proto']`. -/
def solverListenTopic : String := "/iLayer/1/rfq/proto"

/-- `SolverService.sendResponse`: `` contentTopics = [`/iLayer/1/${bucket}/proto`] ``. -/
def solverResponseTopic (bucket : String) : String :=
  "/iLayer/1/" ++ bucket ++ "/proto"

/-! ## Quote codec (`UtilsService.getRequestType` / `getResponseType`)

The wire schemas defined in the source with `protobufjs`:
`Request = bucket:string(1), from:RequestFrom(2), to:RequestTo(3)` with
`RequestFrom/To = network:string(1), tokens:repeated RequestToken(2)` and
`RequestToken = address:string(1), weight:int32(2)`; the response schema is
identical with `solver` for `bucket` and `amount:int32` for `weight`.
The encoder follows the protobufjs dynamic encoder: every present scalar or
message property is written (including zeros and empty strings); a repeated
field is written only when non-empty; fields are written in declaration
order.  The decoder follows the generated decode loop (dispatch on the field
number, `skipType` otherwise) and is followed by the `toJSON()` conversion,
which omits fields that are not own properties of the decoded instance and
omits empty repeated arrays. -/

/-- Base-128 varint encoding, little-endian groups (fueled; `fuel = n`
always suffices). -/
def encVarintAux : Nat → Nat → List Nat
  | 0, n => [n % 128]
  | fuel + 1, n => if n < 128 then [n] else (n % 128 + 128) :: encVarintAux fuel (n / 128)

/-- Base-128 varint encoding of a natural number. -/
def encVarint (n : Nat) : List Nat := encVarintAux n n

/-- JavaScript truncation toward zero of a rational, as applied by the
protobufjs writer to non-integral numbers (`>>> 0` / `LongBits.fromNumber`). -/
def jsTrunc (q : ℚ) : Int := Int.tdiv q.num q.den

/-- Wire encoding of an `int32` field value: non-negative values as the varint
of the low 32 bits, negative values as the varint of the 64-bit two's
complement (`Writer.int32`). -/
def encInt32 (q : ℚ) : List Nat :=
  let t := jsTrunc q
  if t < 0 then encVarint (2 ^ 64 + t).toNat else encVarint (t.toNat % 2 ^ 32)

/-- A length-delimited field: tag byte, varint length, payload. -/
def lenDelim (tagByte : Nat) (payload : List Nat) : List Nat :=
  tagByte :: encVarint payload.length ++ payload

/-- A string field: tag byte, varint byte length, UTF-8 bytes. -/
def strField (tagByte : Nat) (s : String) : List Nat :=
  lenDelim tagByte (strBytes s)

/-- Body bytes of one encoded `RequestToken` message. -/
def encRequestTokenBody (t : RequestToken) : List Nat :=
  strField 10 t.address ++ 16 :: encInt32 t.weight

/-- Body bytes of one encoded `RequestFrom`/`RequestTo` message. -/
def encReqSideBody (s : ReqSide) : List Nat :=
  strField 10 s.network ++ (s.tokens.map (fun t => lenDelim 18 (encRequestTokenBody t))).flatten

/-- `requestType.encode(request).finish()`: the full encoded `Request`. -/
def encodeRequest (r : RequestQuote) : List Nat :=
  strField 10 r.bucket ++ lenDelim 18 (encReqSideBody r.fromSide)
    ++ lenDelim 26 (encReqSideBody r.toSide)

/-- Body bytes of one encoded `ResponseToken` message. -/
def encResponseTokenBody (t : ResponseToken) : List Nat :=
  strField 10 t.address ++ 16 :: encInt32 t.amount

/-- Body bytes of one encoded `ResponseFrom`/`ResponseTo` message. -/
def encRespSideBody (s : RespSide) : List Nat :=
  strField 10 s.network ++ (s.tokens.map (fun t => lenDelim 18 (encResponseTokenBody t))).flatten

/-- `responseType.encode(response).finish()`: the full encoded `Response`. -/
def encodeResponse (r : ResponseQuote) : List Nat :=
  strField 10 r.solver ++ lenDelim 18 (encRespSideBody r.fromSide)
    ++ lenDelim 26 (encRespSideBody r.toSide)

/-- Decode failures thrown by the protobufjs reader. -/
inductive DecErr where
  | eof
  | badWire
  | fuel
deriving DecidableEq, Repr

instance {ε α : Type} [DecidableEq ε] [DecidableEq α] : DecidableEq (Except ε α) := fun a b =>
  match a, b with
  | .error e, .error e' =>
    if h : e = e' then .isTrue (by rw [h]) else .isFalse (by simp [h])
  | .error _, .ok _ => .isFalse (by simp)
  | .ok _, .error _ => .isFalse (by simp)
  | .ok v, .ok v' =>
    if h : v = v' then .isTrue (by rw [h]) else .isFalse (by simp [h])

/-- Base-128 varint decoding: value and remaining bytes. -/
def decVarint : List Nat → Except DecErr (Nat × List Nat)
  | [] => .error .eof
  | b :: rest =>
    if b < 128 then .ok (b, rest)
    else
      match decVarint rest with
      | .error e => .error e
      | .ok (v, r) => .ok (b - 128 + 128 * v, r)

/-- Read exactly `n` bytes (`indexOutOfRange` throw when fewer remain). -/
def readN (n : Nat) (l : List Nat) : Except DecErr (List Nat × List Nat) :=
  if l.length < n then .error .eof else .ok (l.take n, l.drop n)

/-- Bytes back to a string.  This agrees with the protobufjs UTF-8 reader on
ASCII content, which covers every string the system produces (hex addresses,
network names, hex buckets). -/
def bytesToStr (bs : List Nat) : String :=
  ⟨bs.map Char.ofNat⟩

/-- `Reader.string`: varint length followed by that many bytes. -/
def readStr (l : List Nat) : Except DecErr (String × List Nat) := do
  let (len, r1) ← decVarint l
  let (bs, r2) ← readN len r1
  .ok (bytesToStr bs, r2)

/-- `Reader.skipType` for an unknown field.  Wire types 3/4 (groups) are
modelled as a decode failure; they never occur in the encodings this
development evaluates. -/
def skipField (wt : Nat) (l : List Nat) : Except DecErr (List Nat) :=
  if wt = 0 then (decVarint l).map (fun p => p.2)
  else if wt = 1 then (readN 8 l).map (fun p => p.2)
  else if wt = 2 then
    match decVarint l with
    | .error e => .error e
    | .ok (len, r1) => (readN len r1).map (fun p => p.2)
  else if wt = 5 then (readN 4 l).map (fun p => p.2)
  else .error .badWire

/-- `Reader.int32`: the low 32 bits of the varint, sign-extended. -/
def int32OfNat (v : Nat) : Int :=
  if v % 2 ^ 32 < 2 ^ 31 then ((v % 2 ^ 32 : Nat) : Int)
  else ((v % 2 ^ 32 : Nat) : Int) - 2 ^ 32

/-- A decoded `RequestToken` message instance: a field is `some` exactly when
it occurred on the wire (`toJSON` keeps exactly those). -/
structure TokenMsg where
  address : Option String
  weight : Option ℚ
deriving DecidableEq, Repr

/-- A decoded `RequestFrom`/`RequestTo` message instance, before `toJSON`:
the repeated field is materialised as a plain list (the generated constructor
initialises it to `[]`). -/
structure SideMsg where
  network : Option String
  tokens : List TokenMsg
deriving DecidableEq, Repr

/-- A decoded `Request` message instance, before `toJSON`. -/
structure ReqMsg where
  bucket : Option String
  fromSide : Option SideMsg
  toSide : Option SideMsg
deriving DecidableEq, Repr

/-- The JSON of a decoded side after `toJSON`: an empty repeated field is
omitted (`toObject` without the `arrays` option). -/
structure DecodedSide where
  network : Option String
  tokens : Option (List TokenMsg)
deriving DecidableEq, Repr

/-- The JSON of a decoded `Request` after `toJSON`, the value the solver
callback casts to `RequestQuote`. -/
structure DecodedRequest where
  bucket : Option String
  fromSide : Option DecodedSide
  toSide : Option DecodedSide
deriving DecidableEq, Repr

/-- `toJSON` on one decoded side: keep the token list only when non-empty. -/
def SideMsg.toJson (s : SideMsg) : DecodedSide :=
  ⟨s.network, if s.tokens.isEmpty then none else some s.tokens⟩

/-- `toJSON` on a decoded `Request`. -/
def ReqMsg.toJson (m : ReqMsg) : DecodedRequest :=
  ⟨m.bucket, m.fromSide.map SideMsg.toJson, m.toSide.map SideMsg.toJson⟩

/-- Decode loop of the `RequestToken` message over its body bytes; one fuel
unit per field (each field consumes at least its tag byte, so
`fuel = length + 1` always suffices). -/
def decTokenLoop (fuel : Nat) (st : TokenMsg) (l : List Nat) : Except DecErr TokenMsg :=
  match fuel, l with
  | _, [] => .ok st
  | 0, _ => .error .fuel
  | fuel + 1, l =>
    match decVarint l with
    | .error e => .error e
    | .ok (tag, r1) =>
      if tag / 8 = 1 then
        match readStr r1 with
        | .error e => .error e
        | .ok (s, r2) => decTokenLoop fuel { st with address := some s } r2
      else if tag / 8 = 2 then
        match decVarint r1 with
        | .error e => .error e
        | .ok (v, r2) =>
          decTokenLoop fuel { st with weight := some ((int32OfNat v : Int) : ℚ) } r2
      else
        match skipField (tag % 8) r1 with
        | .error e => .error e
        | .ok r2 => decTokenLoop fuel st r2

/-- Decode a `RequestToken` message from its body bytes. -/
def decodeTokenBytes (l : List Nat) : Except DecErr TokenMsg :=
  decTokenLoop (l.length + 1) ⟨none, none⟩ l

/-- Decode loop of a `RequestFrom`/`RequestTo` message over its body bytes. -/
def decSideLoop (fuel : Nat) (st : SideMsg) (l : List Nat) : Except DecErr SideMsg :=
  match fuel, l with
  | _, [] => .ok st
  | 0, _ => .error .fuel
  | fuel + 1, l =>
    match decVarint l with
    | .error e => .error e
    | .ok (tag, r1) =>
      if tag / 8 = 1 then
        match readStr r1 with
        | .error e => .error e
        | .ok (s, r2) => decSideLoop fuel { st with network := some s } r2
      else if tag / 8 = 2 then
        match decVarint r1 with
        | .error e => .error e
        | .ok (len, r2) =>
          match readN len r2 with
          | .error e => .error e
          | .ok (chunk, r3) =>
            match decodeTokenBytes chunk with
            | .error e => .error e
            | .ok tok => decSideLoop fuel { st with tokens := st.tokens ++ [tok] } r3
      else
        match skipField (tag % 8) r1 with
        | .error e => .error e
        | .ok r2 => decSideLoop fuel st r2

/-- Decode a side message from its body bytes. -/
def decodeSideBytes (l : List Nat) : Except DecErr SideMsg :=
  decSideLoop (l.length + 1) ⟨none, []⟩ l

/-- Decode loop of the top-level `Request` message. -/
def decReqLoop (fuel : Nat) (st : ReqMsg) (l : List Nat) : Except DecErr ReqMsg :=
  match fuel, l with
  | _, [] => .ok st
  | 0, _ => .error .fuel
  | fuel + 1, l =>
    match decVarint l with
    | .error e => .error e
    | .ok (tag, r1) =>
      if tag / 8 = 1 then
        match readStr r1 with
        | .error e => .error e
        | .ok (s, r2) => decReqLoop fuel { st with bucket := some s } r2
      else if tag / 8 = 2 then
        match decVarint r1 with
        | .error e => .error e
        | .ok (len, r2) =>
          match readN len r2 with
          | .error e => .error e
          | .ok (chunk, r3) =>
            match decodeSideBytes chunk with
            | .error e => .error e
            | .ok side => decReqLoop fuel { st with fromSide := some side } r3
      else if tag / 8 = 3 then
        match decVarint r1 with
        | .error e => .error e
        | .ok (len, r2) =>
          match readN len r2 with
          | .error e => .error e
          | .ok (chunk, r3) =>
            match decodeSideBytes chunk with
            | .error e => .error e
            | .ok side => decReqLoop fuel { st with toSide := some side } r3
      else
        match skipField (tag % 8) r1 with
        | .error e => .error e
        | .ok r2 => decReqLoop fuel st r2

/-- `requestType.decode(payload).toJSON()`: decode the wire bytes and take the
JSON view. -/
def decodeRequest (l : List Nat) : Except DecErr DecodedRequest :=
  (decReqLoop (l.length + 1) ⟨none, none, none⟩ l).map ReqMsg.toJson

/-- The fields a structurally complete decoded token carries, as a
`RequestToken`. -/
def TokenMsg.total : TokenMsg → Option RequestToken
  | ⟨some a, some w⟩ => some ⟨a, w⟩
  | _ => none

/-- The request tokens a list of structurally complete decoded tokens
carries. -/
def tokensTotal : List TokenMsg → Option (List RequestToken)
  | [] => some []
  | m :: rest =>
    match m.total, tokensTotal rest with
    | some t, some ts => some (t :: ts)
    | _, _ => none

/-- The fields a structurally complete decoded side carries, as a `ReqSide`. -/
def DecodedSide.total (s : DecodedSide) : Option ReqSide :=
  match s.network, s.tokens with
  | some n, some ts => (tokensTotal ts).map (fun l => ⟨n, l⟩)
  | _, _ => none

/-- The fields a structurally complete decoded request carries, as a
`RequestQuote`. -/
def DecodedRequest.total (d : DecodedRequest) : Option RequestQuote :=
  match d.bucket, d.fromSide, d.toSide with
  | some b, some f, some t =>
    match f.total, t.total with
    | some fs, some ts => some ⟨b, fs, ts⟩
    | _, _ => none
  | _, _, _ => none

/-- The token message the wire round trip produces for a request token. -/
def RequestToken.msgOf (t : RequestToken) : TokenMsg :=
  ⟨some t.address, some ((jsTrunc t.weight : Int) : ℚ)⟩

/-- The decoded JSON the wire round trip produces for a request side: an
empty token list comes back as an absent field. -/
def ReqSide.jsonOf (s : ReqSide) : DecodedSide :=
  ⟨some s.network, if s.tokens.isEmpty then none else some (s.tokens.map RequestToken.msgOf)⟩

/-- The decoded JSON the wire round trip produces for a request. -/
def RequestQuote.jsonOf (r : RequestQuote) : DecodedRequest :=
  ⟨some r.bucket, some r.fromSide.jsonOf, some r.toSide.jsonOf⟩

/-- The decoded JSON that would reproduce every field of a request side,
including an empty token list as a present empty array. -/
def ReqSide.fullJsonOf (s : ReqSide) : DecodedSide :=
  ⟨some s.network, some (s.tokens.map RequestToken.msgOf)⟩

/-- The decoded JSON that would reproduce every field of a request: what the
round-trip claim asserts `decode ∘ encode` returns. -/
def RequestQuote.fullJsonOf (r : RequestQuote) : DecodedRequest :=
  ⟨some r.bucket, some r.fromSide.fullJsonOf, some r.toSide.fullJsonOf⟩

/-! ## Validity of requests for the codec claims -/

/-- All characters of the string are ASCII. -/
def AsciiStr (s : String) : Prop := ∀ c ∈ s.data, c.toNat < 128

/-- The weight is an integer representable in a signed 32-bit field, and
non-negative. -/
def ValidWeight (q : ℚ) : Prop := q.den = 1 ∧ 0 ≤ q.num ∧ q.num < 2 ^ 31

/-- A valid request token for the codec round trip. -/
def ValidToken (t : RequestToken) : Prop := AsciiStr t.address ∧ ValidWeight t.weight

/-- A valid request side for the codec round trip. -/
def ValidSide (s : ReqSide) : Prop :=
  AsciiStr s.network ∧ ∀ t ∈ s.tokens, ValidToken t

/-- A valid quote request for the codec round trip: ASCII string content and
integral, non-negative 32-bit weights. -/
def ValidRequest (r : RequestQuote) : Prop :=
  AsciiStr r.bucket ∧ ValidSide r.fromSide ∧ ValidSide r.toSide

instance : DecidablePred AsciiStr := fun s =>
  inferInstanceAs (Decidable (∀ c ∈ s.data, c.toNat < 128))

instance : DecidablePred ValidWeight := fun q =>
  inferInstanceAs (Decidable (q.den = 1 ∧ 0 ≤ q.num ∧ q.num < 2 ^ 31))

instance : DecidablePred ValidToken := fun t =>
  inferInstanceAs (Decidable (AsciiStr t.address ∧ ValidWeight t.weight))

instance : DecidablePred ValidSide := fun s =>
  inferInstanceAs (Decidable (AsciiStr s.network ∧ ∀ t ∈ s.tokens, ValidToken t))

instance (r : RequestQuote) : Decidable (ValidRequest r) :=
  inferInstanceAs (Decidable (_ ∧ _ ∧ _))

/-! ## Solver pipeline (`solver/solver.service.ts`) -/

/-- Failures a callback body can raise: a thrown `TypeError` (property access
or method call on `undefined`) or a protobuf decode failure. -/
inductive JsErr where
  | typeErr
  | codec (e : DecErr)
deriving DecidableEq, Repr

/-- `SolverService.processMessage`, parametrised by the solver's public key,
the price list returned by the external price feed, and the fee draws.
`request.from.tokens[0]` on an empty list yields `undefined`, so the
subsequent `.address` access throws; a falsy source price (absent or `0`)
makes the method return without a value (`none`). -/
def processMessage (solverPk : String) (prices : List Price) (fees : Nat → ℚ)
    (request : RequestQuote) : Except JsErr (Option ResponseQuote) :=
  match request.fromSide.tokens with
  | [] => .error .typeErr
  | fromToken :: _ =>
    match getPriceForAddress prices fromToken.address with
    | none => .ok none
    | some fromTokenPrice =>
      if fromTokenPrice = 0 then .ok none
      else
        let fromTokenAmountInUSD := fromToken.weight * fromTokenPrice
        let updatedToTokens :=
          computeUpdatedToTokens request.toSide.tokens fromTokenAmountInUSD prices fees 0
        .ok (some ⟨solverPk,
          ⟨request.fromSide.network,
            request.fromSide.tokens.map (fun t => ⟨t.address, t.weight⟩)⟩,
          ⟨request.toSide.network, updatedToTokens⟩⟩)

/-- `SolverService.sendResponse`, as the list of messages published on the
bucket topic.  When `processMessage` returned no value, the source reaches
`responseType.encode(response)` with `response === undefined`, which throws a
`TypeError` before `lightPush.send` is ever called, so nothing is published. -/
def sendResponse (bucket : String) (response : Option ResponseQuote) :
    Except JsErr (List (String × List Nat)) :=
  match response with
  | none => .error .typeErr
  | some r => .ok [(solverResponseTopic bucket, encodeResponse r)]

/-- `SolverService.callback`: skip messages with no payload, decode the
request, process it, send the response.  The callback body has no `try`
handler, so every failure propagates out of the invocation.  A decoded value
that is structurally incomplete (a field the later code dereferences is
absent) is mapped to a `TypeError`; the verified scenarios only exercise
structurally complete decodes. -/
def solverCallback (solverPk : String) (prices : List Price) (fees : Nat → ℚ)
    (payload : Option (List Nat)) : Except JsErr (List (String × List Nat)) :=
  match payload with
  | none => .ok []
  | some bytes =>
    match decodeRequest bytes with
    | .error e => .error (.codec e)
    | .ok d =>
      match d.total with
      | none => .error .typeErr
      | some request =>
        match processMessage solverPk prices fees request with
        | .error e => .error e
        | .ok response => sendResponse request.bucket response

/-- The messages an execution of the callback actually published. -/
def publishesOf : Except JsErr (List (String × List Nat)) → List (String × List Nat)
  | .error _ => []
  | .ok l => l

/-! ## Codec lemmas -/

theorem encVarintAux_spec (fuel : Nat) : ∀ n, n ≤ fuel → ∀ rest,
    decVarint (encVarintAux fuel n ++ rest) = .ok (n, rest) := by
  induction fuel with
  | zero =>
    intro n hn rest
    interval_cases n
    simp [encVarintAux, decVarint]
  | succ fuel ih =>
    intro n hn rest
    by_cases h : n < 128
    · simp [encVarintAux, h, decVarint]
    · have hpos : 0 < n := by omega
      have hdiv : n / 128 ≤ fuel := by
        have : n / 128 < n := Nat.div_lt_self hpos (by norm_num)
        omega
      simp only [encVarintAux, if_neg h, List.cons_append]
      have hb : ¬ (n % 128 + 128 < 128) := by omega
      simp only [decVarint, if_neg hb, ih (n / 128) hdiv rest]
      simp only [Except.ok.injEq, Prod.mk.injEq, and_true]
      omega

theorem decVarint_encVarint (n : Nat) (rest : List Nat) :
    decVarint (encVarint n ++ rest) = .ok (n, rest) :=
  encVarintAux_spec n n le_rfl rest

theorem decVarint_byte (b : Nat) (h : b < 128) (rest : List Nat) :
    decVarint (b :: rest) = .ok (b, rest) := by
  simp [decVarint, h]

theorem readN_exact (l rest : List Nat) : readN l.length (l ++ rest) = .ok (l, rest) := by
  have hlen : ¬ ((l ++ rest).length < l.length) := by
    simp [List.length_append]
  simp [readN, hlen, List.take_left, List.drop_left]

theorem readStr_pre (bs rest : List Nat) :
    readStr (encVarint bs.length ++ (bs ++ rest)) = .ok (bytesToStr bs, rest) := by
  simp only [readStr, bind, Except.bind, decVarint_encVarint, readN_exact]

theorem utf8_flatten_ascii (l : List Char) (h : ∀ c ∈ l, c.toNat < 128) :
    (l.map utf8Bytes).flatten = l.map Char.toNat := by
  induction l with
  | nil => simp
  | cons c t ih =>
    simp only [List.map_cons, List.flatten_cons]
    rw [ih (fun d hd => h d (List.mem_cons_of_mem c hd))]
    simp [utf8Bytes, h c (List.mem_cons_self c t)]

theorem strBytes_ascii (s : String) (hs : AsciiStr s) :
    strBytes s = s.data.map Char.toNat := by
  rw [strBytes]
  exact utf8_flatten_ascii s.data hs

theorem charOfNat_toNat (c : Char) : Char.ofNat c.toNat = c := by
  rw [Char.ofNat, dif_pos (show c.toNat.isValidChar from c.valid)]
  rfl

theorem bytesToStr_strBytes (s : String) (hs : AsciiStr s) :
    bytesToStr (strBytes s) = s := by
  rw [strBytes_ascii s hs, bytesToStr, List.map_map]
  have hmap : ∀ c ∈ s.data, (Char.ofNat ∘ Char.toNat) c = id c := fun c _ =>
    charOfNat_toNat c
  rw [List.map_congr_left hmap, List.map_id]

theorem readStr_strBytes (s : String) (hs : AsciiStr s) (rest : List Nat) :
    readStr (encVarint (strBytes s).length ++ (strBytes s ++ rest)) = .ok (s, rest) := by
  rw [readStr_pre, bytesToStr_strBytes s hs]

theorem jsTrunc_valid (q : ℚ) (h : ValidWeight q) : jsTrunc q = q.num := by
  rw [jsTrunc, h.1]
  simp

theorem encInt32_valid (q : ℚ) (h : ValidWeight q) :
    encInt32 q = encVarint q.num.toNat := by
  have ht := jsTrunc_valid q h
  simp only [encInt32, ht, if_neg (not_lt.mpr h.2.1)]
  congr 1
  have hlt : q.num.toNat < 2 ^ 32 := by
    have := h.2.2
    omega
  exact Nat.mod_eq_of_lt hlt

theorem int32OfNat_small (v : Nat) (h : v < 2 ^ 31) : int32OfNat v = (v : Int) := by
  have h32 : v % 2 ^ 32 = v := Nat.mod_eq_of_lt (by omega)
  rw [int32OfNat, h32, if_pos h]

theorem decoded_weight_valid (q : ℚ) (h : ValidWeight q) :
    ((int32OfNat q.num.toNat : Int) : ℚ) = ((jsTrunc q : Int) : ℚ) := by
  have hlt : q.num.toNat < 2 ^ 31 := by
    have := h.2.2
    omega
  rw [int32OfNat_small _ hlt, jsTrunc_valid q h, Int.toNat_of_nonneg h.2.1]

theorem decVarint_enc_nil (w : Nat) : decVarint (encVarint w) = .ok (w, []) := by
  have h := decVarint_encVarint w []
  simpa using h

theorem decTokenLoop_weight (f : Nat) (st : TokenMsg) (w : Nat) :
    decTokenLoop (f + 1) st (16 :: encVarint w)
      = .ok { st with weight := some ((int32OfNat w : Int) : ℚ) } := by
  have h16 : decVarint (16 :: encVarint w) = .ok (16, encVarint w) :=
    decVarint_byte 16 (by norm_num) _
  simp only [decTokenLoop, h16, decVarint_enc_nil]
  norm_num

theorem decodeTokenBytes_enc (t : RequestToken) (hv : ValidToken t) :
    decodeTokenBytes (encRequestTokenBody t) = .ok (RequestToken.msgOf t) := by
  obtain ⟨ha, hw⟩ := hv
  have hbody : encRequestTokenBody t
      = 10 :: (encVarint (strBytes t.address).length
          ++ (strBytes t.address ++ (16 :: encVarint t.weight.num.toNat))) := by
    rw [encRequestTokenBody, strField, lenDelim, encInt32_valid t.weight hw]
    simp [List.append_assoc]
  have h10 : decVarint (10 :: (encVarint (strBytes t.address).length
      ++ (strBytes t.address ++ (16 :: encVarint t.weight.num.toNat))))
      = .ok (10, encVarint (strBytes t.address).length
          ++ (strBytes t.address ++ (16 :: encVarint t.weight.num.toNat))) :=
    decVarint_byte 10 (by norm_num) _
  rw [decodeTokenBytes, hbody]
  simp only [List.length_cons, decTokenLoop, h10, readStr_strBytes t.address ha]
  have h16 : decVarint (16 :: encVarint t.weight.num.toNat)
      = .ok (16, encVarint t.weight.num.toNat) := decVarint_byte 16 (by norm_num) _
  simp only [h16, decVarint_enc_nil]
  norm_num [decTokenLoop, RequestToken.msgOf, decoded_weight_valid t.weight hw]

theorem decSideLoop_tokens (ts : List RequestToken) (hts : ∀ t ∈ ts, ValidToken t) :
    ∀ (f : Nat) (st : SideMsg),
      ((ts.map (fun t => lenDelim 18 (encRequestTokenBody t))).flatten).length < f →
      decSideLoop f st ((ts.map (fun t => lenDelim 18 (encRequestTokenBody t))).flatten)
        = .ok { st with tokens := st.tokens ++ ts.map RequestToken.msgOf } := by
  induction ts with
  | nil =>
    intro f st _
    simp [decSideLoop]
  | cons t ts ih =>
    intro f st hlen
    have hbytes : ((t :: ts).map (fun t => lenDelim 18 (encRequestTokenBody t))).flatten
        = 18 :: (encVarint (encRequestTokenBody t).length
            ++ (encRequestTokenBody t
              ++ ((ts.map (fun t => lenDelim 18 (encRequestTokenBody t))).flatten))) := by
      simp [lenDelim, List.append_assoc]
    rw [hbytes] at hlen ⊢
    match f, hlen with
    | f + 1, hlen =>
      have h18 : decVarint (18 :: (encVarint (encRequestTokenBody t).length
          ++ (encRequestTokenBody t
            ++ ((ts.map (fun t => lenDelim 18 (encRequestTokenBody t))).flatten))))
          = .ok (18, encVarint (encRequestTokenBody t).length
              ++ (encRequestTokenBody t
                ++ ((ts.map (fun t => lenDelim 18 (encRequestTokenBody t))).flatten))) :=
        decVarint_byte 18 (by norm_num) _
      have hrest : ((ts.map (fun t => lenDelim 18 (encRequestTokenBody t))).flatten).length < f := by
        have := hlen
        simp only [List.length_cons, List.length_append] at this
        omega
      simp only [decSideLoop, h18, decVarint_encVarint, readN_exact,
        decodeTokenBytes_enc t (hts t (by simp))]
      norm_num
      rw [ih (fun u hu => hts u (by simp [hu])) f _ hrest]
      simp

theorem decodeSideBytes_enc (s : ReqSide) (hv : ValidSide s) :
    decodeSideBytes (encReqSideBody s)
      = .ok ⟨some s.network, s.tokens.map RequestToken.msgOf⟩ := by
  obtain ⟨hn, hts⟩ := hv
  have hbody : encReqSideBody s
      = 10 :: (encVarint (strBytes s.network).length
          ++ (strBytes s.network
            ++ ((s.tokens.map (fun t => lenDelim 18 (encRequestTokenBody t))).flatten))) := by
    rw [encReqSideBody, strField, lenDelim]
    simp [List.append_assoc]
  have h10 : decVarint (10 :: (encVarint (strBytes s.network).length
      ++ (strBytes s.network
        ++ ((s.tokens.map (fun t => lenDelim 18 (encRequestTokenBody t))).flatten))))
      = .ok (10, encVarint (strBytes s.network).length
          ++ (strBytes s.network
            ++ ((s.tokens.map (fun t => lenDelim 18 (encRequestTokenBody t))).flatten))) :=
    decVarint_byte 10 (by norm_num) _
  rw [decodeSideBytes, hbody]
  simp only [List.length_cons, decSideLoop, h10, readStr_strBytes s.network hn]
  rw [decSideLoop_tokens s.tokens hts _ _
    (by simp only [List.length_append]; omega)]
  simp

/-- The decoded message instance a valid side round-trips to. -/
def ReqSide.msgOf (s : ReqSide) : SideMsg :=
  ⟨some s.network, s.tokens.map RequestToken.msgOf⟩

theorem decReqLoop_bucket (f : Nat) (m : ReqMsg) (s : String) (hs : AsciiStr s)
    (rest : List Nat) :
    decReqLoop (f + 1) m (10 :: (encVarint (strBytes s).length ++ (strBytes s ++ rest)))
      = decReqLoop f { m with bucket := some s } rest := by
  simp only [decReqLoop, decVarint_byte 10 (by norm_num), readStr_strBytes s hs]
  norm_num

theorem decReqLoop_toSide (st : ReqSide) (ht : ValidSide st) :
    ∀ (f : Nat) (m : ReqMsg),
      (lenDelim 26 (encReqSideBody st)).length < f →
      decReqLoop f m (lenDelim 26 (encReqSideBody st))
        = .ok { m with toSide := some st.msgOf } := by
  intro f m hlen
  have hbytes : lenDelim 26 (encReqSideBody st)
      = 26 :: (encVarint (encReqSideBody st).length ++ (encReqSideBody st ++ [])) := by
    simp [lenDelim]
  rw [hbytes] at hlen ⊢
  match f, hlen with
  | f + 1, hlen =>
    have h26 : decVarint (26 :: (encVarint (encReqSideBody st).length
        ++ (encReqSideBody st ++ [])))
        = .ok (26, encVarint (encReqSideBody st).length ++ (encReqSideBody st ++ [])) :=
      decVarint_byte 26 (by norm_num) _
    simp only [decReqLoop, h26, decVarint_encVarint, readN_exact,
      decodeSideBytes_enc st ht]
    norm_num [ReqSide.msgOf]

theorem decReqLoop_sides (sf st : ReqSide) (hf : ValidSide sf) (ht : ValidSide st) :
    ∀ (f : Nat) (m : ReqMsg),
      (lenDelim 18 (encReqSideBody sf) ++ lenDelim 26 (encReqSideBody st)).length < f →
      decReqLoop f m (lenDelim 18 (encReqSideBody sf) ++ lenDelim 26 (encReqSideBody st))
        = .ok { m with fromSide := some sf.msgOf, toSide := some st.msgOf } := by
  intro f m hlen
  have hbytes : lenDelim 18 (encReqSideBody sf) ++ lenDelim 26 (encReqSideBody st)
      = 18 :: (encVarint (encReqSideBody sf).length
          ++ (encReqSideBody sf ++ lenDelim 26 (encReqSideBody st))) := by
    simp [lenDelim, List.append_assoc]
  rw [hbytes] at hlen ⊢
  match f, hlen with
  | f + 1, hlen =>
    have h18 : decVarint (18 :: (encVarint (encReqSideBody sf).length
        ++ (encReqSideBody sf ++ lenDelim 26 (encReqSideBody st))))
        = .ok (18, encVarint (encReqSideBody sf).length
            ++ (encReqSideBody sf ++ lenDelim 26 (encReqSideBody st))) :=
      decVarint_byte 18 (by norm_num) _
    have hlen2 : (lenDelim 26 (encReqSideBody st)).length < f := by
      simp only [List.length_cons, List.length_append] at hlen
      omega
    simp only [decReqLoop, h18, decVarint_encVarint, readN_exact,
      decodeSideBytes_enc sf hf]
    norm_num
    rw [decReqLoop_toSide st ht f _ hlen2]
    simp [ReqSide.msgOf]

set_option maxHeartbeats 1000000 in
/-- Core round-trip theorem: decoding an encoded valid request yields exactly
its JSON image (absent `tokens` field for an empty token list). -/
theorem decodeRequest_enc (r : RequestQuote) (hv : ValidRequest r) :
    decodeRequest (encodeRequest r) = .ok r.jsonOf := by
  obtain ⟨hb, hf, ht⟩ := hv
  have hbody : encodeRequest r
      = 10 :: (encVarint (strBytes r.bucket).length
          ++ (strBytes r.bucket
            ++ (lenDelim 18 (encReqSideBody r.fromSide)
              ++ lenDelim 26 (encReqSideBody r.toSide)))) := by
    rw [encodeRequest, strField, lenDelim]
    simp [List.append_assoc]
  have h10 : decVarint (10 :: (encVarint (strBytes r.bucket).length
      ++ (strBytes r.bucket
        ++ (lenDelim 18 (encReqSideBody r.fromSide)
          ++ lenDelim 26 (encReqSideBody r.toSide)))))
      = .ok (10, encVarint (strBytes r.bucket).length
          ++ (strBytes r.bucket
            ++ (lenDelim 18 (encReqSideBody r.fromSide)
              ++ lenDelim 26 (encReqSideBody r.toSide)))) :=
    decVarint_byte 10 (by norm_num) _
  rw [decodeRequest, hbody, decReqLoop_bucket _ _ r.bucket hb _]
  rw [decReqLoop_sides r.fromSide r.toSide hf ht _ _
    (by simp only [List.length_cons, List.length_append]; omega)]
  simp [Except.map, ReqMsg.toJson, SideMsg.toJson, ReqSide.msgOf, RequestQuote.jsonOf,
    ReqSide.jsonOf, List.isEmpty_eq_true, List.map_eq_nil_iff]

theorem weight_cast_valid (q : ℚ) (h : ValidWeight q) : ((jsTrunc q : Int) : ℚ) = q := by
  rw [jsTrunc_valid q h]
  exact Rat.coe_int_num_of_den_eq_one h.1

theorem tokenMsg_total_msgOf (t : RequestToken) (hv : ValidToken t) :
    TokenMsg.total (RequestToken.msgOf t) = some t := by
  simp [RequestToken.msgOf, TokenMsg.total, weight_cast_valid t.weight hv.2]

theorem tokensTotal_msgOf (ts : List RequestToken) (hts : ∀ t ∈ ts, ValidToken t) :
    tokensTotal (ts.map RequestToken.msgOf) = some ts := by
  induction ts with
  | nil => simp [tokensTotal]
  | cons t rest ih =>
    simp only [List.map_cons, tokensTotal, tokenMsg_total_msgOf t (hts t (by simp)),
      ih (fun u hu => hts u (by simp [hu]))]

theorem fullJsonOf_total (r : RequestQuote) (hv : ValidRequest r) :
    (RequestQuote.fullJsonOf r).total = some r := by
  obtain ⟨hb, ⟨hfn, hft⟩, ⟨htn, htt⟩⟩ := hv
  simp [RequestQuote.fullJsonOf, DecodedRequest.total, ReqSide.fullJsonOf, DecodedSide.total,
    tokensTotal_msgOf r.fromSide.tokens hft, tokensTotal_msgOf r.toSide.tokens htt]

theorem jsonOf_eq_fullJsonOf (r : RequestQuote)
    (hf : r.fromSide.tokens ≠ []) (ht : r.toSide.tokens ≠ []) :
    r.jsonOf = r.fullJsonOf := by
  simp [RequestQuote.jsonOf, RequestQuote.fullJsonOf, ReqSide.jsonOf, ReqSide.fullJsonOf,
    List.isEmpty_eq_true, hf, ht]

/-! ## Pricing-engine lemmas -/

theorem computeUpdatedToTokens_length (toTokens : List RequestToken)
    (fromUSD : ℚ) (prices : List Price) (fees : Nat → ℚ) (k : Nat) :
    (computeUpdatedToTokens toTokens fromUSD prices fees k).length = toTokens.length := by
  induction toTokens generalizing k with
  | nil => simp [computeUpdatedToTokens]
  | cons t rest ih =>
    rw [computeUpdatedToTokens]
    rcases h : getPriceForAddress prices t.address with _ | p
    · simp [ih k]
    · by_cases h0 : p = 0 <;> simp [h0, ih k, ih (k + 1)]

/-- A token whose price lookup is falsy (absent or zero) yields amount `0` at
its position, and deleting it leaves every other output unchanged (it draws no
fee, so the fee stream stays aligned). -/
theorem computeUpdatedToTokens_falsy (toTokens : List RequestToken)
    (fromUSD : ℚ) (prices : List Price) (fees : Nat → ℚ) (k i : Nat) (t : RequestToken)
    (ht : toTokens[i]? = some t)
    (hfal : getPriceForAddress prices t.address = none
      ∨ getPriceForAddress prices t.address = some 0) :
    (computeUpdatedToTokens toTokens fromUSD prices fees k)[i]? = some ⟨t.address, 0⟩
      ∧ (computeUpdatedToTokens toTokens fromUSD prices fees k).eraseIdx i
        = computeUpdatedToTokens (toTokens.eraseIdx i) fromUSD prices fees k := by
  induction toTokens generalizing k i with
  | nil => simp at ht
  | cons hd rest ih =>
    cases i with
    | zero =>
      simp only [List.getElem?_cons_zero, Option.some.injEq] at ht
      subst ht
      rcases hfal with hfal | hfal <;>
        simp [computeUpdatedToTokens, hfal, List.eraseIdx]
    | succ i =>
      simp only [List.getElem?_cons_succ] at ht
      rw [computeUpdatedToTokens]
      rcases h : getPriceForAddress prices hd.address with _ | p
      · have := ih k i ht
        simp [List.eraseIdx, computeUpdatedToTokens, h, this.1, this.2]
      · by_cases h0 : p = 0
        · have := ih k i ht
          simp [List.eraseIdx, computeUpdatedToTokens, h, h0, this.1, this.2]
        · have := ih (k + 1) i ht
          simp [List.eraseIdx, computeUpdatedToTokens, h, h0, this.1, this.2]

/-- When every destination token has a non-zero price in the list, the output
is exactly the per-token formula with the `i`-th fee draw. -/
theorem computeUpdatedToTokens_getElem (toTokens : List RequestToken)
    (fromUSD : ℚ) (prices : List Price) (fees : Nat → ℚ) (k : Nat)
    (hall : ∀ t ∈ toTokens, ∃ p, getPriceForAddress prices t.address = some p ∧ p ≠ 0)
    (i : Nat) (t : RequestToken) (ht : toTokens[i]? = some t) :
    (computeUpdatedToTokens toTokens fromUSD prices fees k)[i]?
      = some ⟨t.address, fromUSD * t.weight / 100
          / ((getPriceForAddress prices t.address).getD 0) * (1 - fees (k + i))⟩ := by
  induction toTokens generalizing k i with
  | nil => simp at ht
  | cons hd rest ih =>
    obtain ⟨p, hp, h0⟩ := hall hd (by simp)
    cases i with
    | zero =>
      simp only [List.getElem?_cons_zero, Option.some.injEq] at ht
      subst ht
      simp [computeUpdatedToTokens, hp, h0]
    | succ i =>
      simp only [List.getElem?_cons_succ] at ht
      rw [computeUpdatedToTokens, hp]
      simp only [if_neg h0, List.getElem?_cons_succ]
      rw [ih (k + 1) (fun u hu => hall u (List.mem_cons_of_mem hd hu)) i ht]
      have harith : k + 1 + i = k + (i + 1) := by omega
      rw [harith]

theorem processMessage_some (pk : String) (prices : List Price) (fees : Nat → ℚ)
    (req : RequestQuote) (ft : RequestToken) (rest : List RequestToken)
    (hft : req.fromSide.tokens = ft :: rest) (p : ℚ)
    (hp : getPriceForAddress prices ft.address = some p) (h0 : p ≠ 0) :
    processMessage pk prices fees req
      = .ok (some ⟨pk,
          ⟨req.fromSide.network, req.fromSide.tokens.map (fun t => ⟨t.address, t.weight⟩)⟩,
          ⟨req.toSide.network,
            computeUpdatedToTokens req.toSide.tokens (ft.weight * p) prices fees 0⟩⟩) := by
  rw [processMessage]
  rw [hft]
  simp only [hp, if_neg h0, hft]

theorem processMessage_none_missing (pk : String) (prices : List Price) (fees : Nat → ℚ)
    (req : RequestQuote) (ft : RequestToken) (rest : List RequestToken)
    (hft : req.fromSide.tokens = ft :: rest)
    (hp : getPriceForAddress prices ft.address = none) :
    processMessage pk prices fees req = .ok none := by
  rw [processMessage, hft]
  simp only [hp]

theorem processMessage_none_zero (pk : String) (prices : List Price) (fees : Nat → ℚ)
    (req : RequestQuote) (ft : RequestToken) (rest : List RequestToken)
    (hft : req.fromSide.tokens = ft :: rest)
    (hp : getPriceForAddress prices ft.address = some 0) :
    processMessage pk prices fees req = .ok none := by
  rw [processMessage, hft]
  simp [hp]

/-- Composition for the solver callback on a wire-encoded request whose source
token has no price: nothing is ever published (the `undefined` response throws
inside `sendResponse` before any `lightPush.send`). -/
theorem solverCallback_missing_source (pk : String) (prices : List Price) (fees : Nat → ℚ)
    (req : RequestQuote) (ft : RequestToken) (rest : List RequestToken)
    (hft : req.fromSide.tokens = ft :: rest)
    (hp : getPriceForAddress prices ft.address = none)
    (hv : ValidRequest req) :
    publishesOf (solverCallback pk prices fees (some (encodeRequest req))) = [] := by
  by_cases hto : req.toSide.tokens = []
  · have h2 : (ReqSide.jsonOf req.toSide).total = none := by
      simp [ReqSide.jsonOf, hto, DecodedSide.total]
    have htot : (RequestQuote.jsonOf req).total = none := by
      rcases hX : (ReqSide.jsonOf req.fromSide).total with _ | fs <;>
        simp [RequestQuote.jsonOf, DecodedRequest.total, hX, h2]
    simp [solverCallback, decodeRequest_enc req hv, htot, publishesOf]
  · have hjson : req.jsonOf = req.fullJsonOf :=
      jsonOf_eq_fullJsonOf req (by rw [hft]; simp) hto
    have htot : (RequestQuote.jsonOf req).total = some req := by
      rw [hjson]
      exact fullJsonOf_total req hv
    simp [solverCallback, decodeRequest_enc req hv, htot,
      processMessage_none_missing pk prices fees req ft rest hft hp, sendResponse,
      publishesOf]

/-! ## Digest-length lemmas for the bucket claim -/

theorem sha256Block_length (h block : List Nat) : (sha256Block h block).length = 8 := by
  simp [sha256Block]

theorem foldl_sha256Block_length (blocks : List (List Nat)) :
    ∀ h : List Nat, h.length = 8 → (blocks.foldl sha256Block h).length = 8 := by
  induction blocks with
  | nil => intro h hh; simpa using hh
  | cons b rest ih =>
    intro h _
    exact ih (sha256Block h b) (sha256Block_length h b)

theorem flatten_be32_length (l : List Nat) : ((l.map be32).flatten).length = 4 * l.length := by
  induction l with
  | nil => simp
  | cons x rest ih =>
    simp [be32, ih]
    omega

theorem sha256_length (msg : List Nat) : (sha256 msg).length = 32 := by
  rw [sha256]
  rw [flatten_be32_length]
  rw [foldl_sha256Block_length _ sha256H0 (by simp [sha256H0])]

theorem hexOfBytes_length (bs : List Nat) : (hexOfBytes bs).length = 2 * bs.length := by
  rw [hexOfBytes]
  show (String.mk _).length = _
  rw [String.length]
  induction bs with
  | nil => simp
  | cons b rest ih =>
    simp only [List.map_cons, List.flatten_cons, List.length_append, List.length_cons,
      List.length_nil] at ih ⊢
    omega

theorem sha256HexOfString_length (s : String) : (sha256HexOfString s).length = 64 := by
  rw [sha256HexOfString, hexOfBytes_length, sha256_length]

/-- A lowercase hexadecimal digit character. -/
def IsHexDigitChar (c : Char) : Prop :=
  ('0' ≤ c ∧ c ≤ '9') ∨ ('a' ≤ c ∧ c ≤ 'f')

instance : DecidablePred IsHexDigitChar := fun c =>
  inferInstanceAs (Decidable (('0' ≤ c ∧ c ≤ '9') ∨ ('a' ≤ c ∧ c ≤ 'f')))

theorem hexDigit_isHex (n : Nat) : IsHexDigitChar (hexDigit n) := by
  rcases Nat.lt_or_ge n 16 with h | h
  · interval_cases n <;> decide
  · have h0 : hexDigit n = '0' := by
      rw [hexDigit, if_neg (by omega), if_neg (by omega)]
    rw [h0]
    left
    exact ⟨le_refl _, by decide⟩

theorem mem_hexOfBytes (bs : List Nat) (c : Char) (hc : c ∈ (hexOfBytes bs).data) :
    IsHexDigitChar c := by
  rw [hexOfBytes] at hc
  simp only [String.data] at hc
  rw [List.mem_flatten] at hc
  obtain ⟨l, hl, hcl⟩ := hc
  rw [List.mem_map] at hl
  obtain ⟨b, _, rfl⟩ := hl
  simp only [List.mem_cons, List.not_mem_nil, or_false] at hcl
  rcases hcl with rfl | rfl
  · exact hexDigit_isHex _
  · exact hexDigit_isHex _

theorem getRandomFeePercentage_bounds (r : ℚ) (h0 : 0 ≤ r) (h1 : r < 1) :
    minFee ≤ getRandomFeePercentage r ∧ getRandomFeePercentage r ≤ maxFee := by
  rw [getRandomFeePercentage, minFee, maxFee]
  constructor <;> nlinarith

/-! ## Sanity vectors for the SHA-256 embedding (FIPS 180-4 test vectors) -/

set_option maxRecDepth 200000

theorem sha256HexOfString_empty_vector :
    sha256HexOfString ""
      = "e3b0c44298fc1c149afbf4c8996fb92427ae41e4649b934ca495991b7852b855" := by
  with_unfolding_all decide

theorem sha256HexOfString_abc_vector :
    sha256HexOfString "abc"
      = "ba7816bf8f01cfea414140de5dae2223b00361a396177a9cb410ff61f20015ad" := by
  with_unfolding_all decide

/-! ## Concrete scenario data (spec §8) -/

/-- The spec's concrete quote request: source `0xAAA` weight `1000` on
`mainnet`, destinations `0xBBB` (30) and `0xCCC` (70) on `base`. -/
def c2req : RequestQuote :=
  ⟨"ab12cd34", ⟨"mainnet", [⟨"0xAAA", 1000⟩]⟩, ⟨"base", [⟨"0xBBB", 30⟩, ⟨"0xCCC", 70⟩]⟩⟩

/-- The spec's concrete price list: `0xAAA = 1`, `0xBBB = 2`, `0xCCC = 5`. -/
def c2prices : List Price := [⟨"0xAAA", 1⟩, ⟨"0xBBB", 2⟩, ⟨"0xCCC", 5⟩]

/-- A valid request with an empty source token list, for the round-trip edge
case. -/
def c3req : RequestQuote := ⟨"b", ⟨"n", []⟩, ⟨"m", [⟨"a", 1⟩]⟩⟩

/-! ## Claims -/

/-- C1: if the source token's price is absent from the looked-up price list,
`processMessage` produces no Quote Response (it returns no value — `none` —
rather than a zero-amount response), and the callback publishes no response
message on the bucket topic for that request. -/
theorem c1_missing_source_price_drops_request (pk : String) (prices : List Price)
    (fees : Nat → ℚ) (req : RequestQuote) (ft : RequestToken) (rest : List RequestToken)
    (hft : req.fromSide.tokens = ft :: rest)
    (hp : getPriceForAddress prices ft.address = none)
    (hv : ValidRequest req) :
    processMessage pk prices fees req = .ok none
      ∧ publishesOf (solverCallback pk prices fees (some (encodeRequest req))) = [] :=
  ⟨processMessage_none_missing pk prices fees req ft rest hft hp,
    solverCallback_missing_source pk prices fees req ft rest hft hp hv⟩

theorem c1_witness :
    processMessage "solver" [⟨"0xBBB", 2⟩, ⟨"0xCCC", 5⟩] (fun _ => 0) c2req = .ok none
      ∧ publishesOf (solverCallback "solver" [⟨"0xBBB", 2⟩, ⟨"0xCCC", 5⟩] (fun _ => 0)
          (some (encodeRequest c2req))) = [] :=
  c1_missing_source_price_drops_request "solver" [⟨"0xBBB", 2⟩, ⟨"0xCCC", 5⟩] (fun _ => 0)
    c2req ⟨"0xAAA", 1000⟩ [] rfl (by with_unfolding_all decide) (by decide)

/-- C2 counterexample: with the spec's request, prices and a zero fee draw, the
destination amounts are `150` for `0xBBB` and `140` for `0xCCC` — not `70` for
`0xCCC` as the claim states (`1000·1·70/100 = 700`, `700/5 = 140`). -/
theorem c2_counterexample :
    processMessage "solver" c2prices (fun _ => 0) c2req
        = .ok (some ⟨"solver", ⟨"mainnet", [⟨"0xAAA", 1000⟩]⟩,
            ⟨"base", [⟨"0xBBB", 150⟩, ⟨"0xCCC", 140⟩]⟩⟩)
      ∧ ¬ (∃ resp, processMessage "solver" c2prices (fun _ => 0) c2req = .ok (some resp)
            ∧ resp.toSide.tokens = [⟨"0xBBB", 150⟩, ⟨"0xCCC", 70⟩]) := by
  have h : processMessage "solver" c2prices (fun _ => 0) c2req
      = .ok (some ⟨"solver", ⟨"mainnet", [⟨"0xAAA", 1000⟩]⟩,
          ⟨"base", [⟨"0xBBB", 150⟩, ⟨"0xCCC", 140⟩]⟩⟩) := by
    with_unfolding_all decide
  refine ⟨h, ?_⟩
  rintro ⟨resp, heq, htoks⟩
  rw [h] at heq
  cases heq
  exact absurd htoks (by with_unfolding_all decide)

/-- C2 (amended): for every request whose source token and every destination
token carry a non-zero price, each destination amount equals
`((sourceWeight · sourcePrice) · destWeight / 100 / destPrice) · (1 − fee)`
with that token's own fee draw, each token computed independently with no
normalisation across the list; in the spec's concrete scenario with fee `0`
the amounts are exactly `150` for `0xBBB` and `140` for `0xCCC`. -/
theorem c2_destination_amount_formula :
    (∀ (pk : String) (prices : List Price) (fees : Nat → ℚ) (req : RequestQuote)
        (ft : RequestToken) (rest : List RequestToken),
      req.fromSide.tokens = ft :: rest →
      ∀ p, getPriceForAddress prices ft.address = some p → p ≠ 0 →
      (∀ t ∈ req.toSide.tokens,
        ∃ q, getPriceForAddress prices t.address = some q ∧ q ≠ 0) →
      ∀ (i : Nat) (t : RequestToken), req.toSide.tokens[i]? = some t →
      ∃ resp, processMessage pk prices fees req = .ok (some resp)
        ∧ resp.toSide.tokens[i]?
            = some ⟨t.address, ft.weight * p * t.weight / 100
                / ((getPriceForAddress prices t.address).getD 0) * (1 - fees i)⟩)
    ∧ processMessage "solver" c2prices (fun _ => 0) c2req
        = .ok (some ⟨"solver", ⟨"mainnet", [⟨"0xAAA", 1000⟩]⟩,
            ⟨"base", [⟨"0xBBB", 150⟩, ⟨"0xCCC", 140⟩]⟩⟩) := by
  constructor
  · intro pk prices fees req ft rest hft p hp h0 hall i t ht
    refine ⟨_, processMessage_some pk prices fees req ft rest hft p hp h0, ?_⟩
    have := computeUpdatedToTokens_getElem req.toSide.tokens (ft.weight * p) prices fees 0
      hall i t ht
    simpa using this
  · with_unfolding_all decide

theorem c2_witness :
    ∃ resp, processMessage "solver" c2prices (fun _ => 0) c2req = .ok (some resp)
      ∧ resp.toSide.tokens[0]?
          = some ⟨"0xBBB", (1000 : ℚ) * 1 * 30 / 100
              / ((getPriceForAddress c2prices "0xBBB").getD 0)
              * (1 - (fun _ : Nat => (0 : ℚ)) 0)⟩ :=
  c2_destination_amount_formula.1 "solver" c2prices (fun _ => 0) c2req ⟨"0xAAA", 1000⟩ []
    rfl 1 (by with_unfolding_all decide) (by with_unfolding_all decide)
    (by
      intro t htm
      simp only [c2req, List.mem_cons, List.not_mem_nil, or_false] at htm
      rcases htm with rfl | rfl
      · exact ⟨2, by with_unfolding_all decide, by with_unfolding_all decide⟩
      · exact ⟨5, by with_unfolding_all decide, by with_unfolding_all decide⟩)
    0 ⟨"0xBBB", 30⟩ (by with_unfolding_all decide)

/-- C3 counterexample: for the valid request `c3req`, whose `from` token list
is empty, decoding the encoding does not reproduce the request: the decoded
JSON has no `from.tokens` field at all (`none`) instead of the empty list the
original carried, so the round trip fails on empty token lists. -/
theorem c3_counterexample :
    decodeRequest (encodeRequest c3req)
        = .ok ⟨some "b", some ⟨some "n", none⟩,
            some ⟨some "m", some [⟨some "a", some 1⟩]⟩⟩
      ∧ decodeRequest (encodeRequest c3req) ≠ .ok c3req.fullJsonOf := by
  constructor
  · with_unfolding_all decide
  · with_unfolding_all decide

/-- C3 (amended): for every valid Quote Request (ASCII strings, integral
non-negative 32-bit weights), decoding the encoding yields the request's JSON
image exactly; whenever both token lists are non-empty this image carries
every field of the original request, and converting it back reproduces the
request — an empty token list however comes back as an absent field rather
than an empty list. -/
theorem c3_roundtrip (r : RequestQuote) (hv : ValidRequest r) :
    decodeRequest (encodeRequest r) = .ok r.jsonOf
      ∧ (r.fromSide.tokens ≠ [] → r.toSide.tokens ≠ [] →
          decodeRequest (encodeRequest r) = .ok r.fullJsonOf
            ∧ r.fullJsonOf.total = some r) := by
  refine ⟨decodeRequest_enc r hv, fun hf ht => ⟨?_, fullJsonOf_total r hv⟩⟩
  rw [decodeRequest_enc r hv, jsonOf_eq_fullJsonOf r hf ht]

theorem c3_witness :
    decodeRequest (encodeRequest c2req) = .ok c2req.jsonOf
      ∧ (c2req.fromSide.tokens ≠ [] → c2req.toSide.tokens ≠ [] →
          decodeRequest (encodeRequest c2req) = .ok c2req.fullJsonOf
            ∧ c2req.fullJsonOf.total = some c2req) :=
  c3_roundtrip c2req (by decide)

/-- C4: evaluation of the claim's failing input.  The solver callback has no
exception handler, so decoding the malformed payload `[0x0A, 0x05]` (a
length-delimited field announcing 5 bytes with none following) raises a decode
failure that propagates out of the callback invocation instead of being
swallowed and logged: the claim's containment policy is not implemented. -/
theorem c4_decode_failure_escapes_callback :
    solverCallback "solver" [] (fun _ => 0) (some [10, 5]) = .error (.codec .eof) := by
  with_unfolding_all decide

/-- C5: a destination token whose address has no price in the price list
yields response amount exactly `0` at its position; every other destination
token's amount is the same as it would be with that token removed (deleting
the token commutes with the computation — it draws no fee, so later draws stay
aligned), and the whole quote is never aborted: the output list always has one
entry per destination token. -/
theorem c5_missing_destination_price_isolated (toTokens : List RequestToken)
    (fromUSD : ℚ) (prices : List Price) (fees : Nat → ℚ) (k i : Nat) (t : RequestToken)
    (ht : toTokens[i]? = some t)
    (hp : getPriceForAddress prices t.address = none) :
    (computeUpdatedToTokens toTokens fromUSD prices fees k)[i]? = some ⟨t.address, 0⟩
      ∧ (computeUpdatedToTokens toTokens fromUSD prices fees k).eraseIdx i
        = computeUpdatedToTokens (toTokens.eraseIdx i) fromUSD prices fees k
      ∧ (computeUpdatedToTokens toTokens fromUSD prices fees k).length
        = toTokens.length :=
  ⟨(computeUpdatedToTokens_falsy toTokens fromUSD prices fees k i t ht (Or.inl hp)).1,
    (computeUpdatedToTokens_falsy toTokens fromUSD prices fees k i t ht (Or.inl hp)).2,
    computeUpdatedToTokens_length toTokens fromUSD prices fees k⟩

theorem c5_witness :
    (computeUpdatedToTokens [⟨"0xAAA", 30⟩, ⟨"0xBBB", 70⟩] 1000 [⟨"0xBBB", 2⟩]
        (fun _ => 0) 0)[0]? = some ⟨"0xAAA", 0⟩
      ∧ (computeUpdatedToTokens [⟨"0xAAA", 30⟩, ⟨"0xBBB", 70⟩] 1000 [⟨"0xBBB", 2⟩]
          (fun _ => 0) 0).eraseIdx 0
        = computeUpdatedToTokens ([⟨"0xAAA", 30⟩, ⟨"0xBBB", 70⟩].eraseIdx 0) 1000
            [⟨"0xBBB", 2⟩] (fun _ => 0) 0
      ∧ (computeUpdatedToTokens [⟨"0xAAA", 30⟩, ⟨"0xBBB", 70⟩] 1000 [⟨"0xBBB", 2⟩]
          (fun _ => 0) 0).length = ([⟨"0xAAA", 30⟩, ⟨"0xBBB", 70⟩] : List RequestToken).length :=
  c5_missing_destination_price_isolated [⟨"0xAAA", 30⟩, ⟨"0xBBB", 70⟩] 1000 [⟨"0xBBB", 2⟩]
    (fun _ => 0) 0 0 ⟨"0xAAA", 30⟩ (by decide) (by with_unfolding_all decide)

/-- C6: the request topic is the literal string `/iLayer/1/rfq/proto` on both
the requester (publish side) and the solver (subscribe side), and for every
bucket `b` the requester's listening topic and the solver's
response-publishing topic are the identical string `/iLayer/1/<b>/proto`, so
request/response correlation by topic equality holds; the solver's publish
really goes out on that topic. -/
theorem c6_topic_agreement (b : String) :
    userSendRequestTopic = "/iLayer/1/rfq/proto"
      ∧ solverListenTopic = userSendRequestTopic
      ∧ userListenTopic b = solverResponseTopic b
      ∧ userListenTopic b = "/iLayer/1/" ++ b ++ "/proto"
      ∧ (∀ resp : ResponseQuote,
          sendResponse b (some resp) = .ok [(solverResponseTopic b, encodeResponse resp)]) :=
  ⟨rfl, rfl, rfl, rfl, fun _ => rfl⟩

/-- C7: `getBucketFromPublicKey` is a pure function of the public key string:
it returns exactly the first 8 characters of the lowercase hex SHA-256 digest
of the key, the result always has length 8 and consists of hexadecimal digit
characters only, and repeated calls on the same key give the same string. -/
theorem c7_bucket_derivation (publicKey : String) :
    getBucketFromPublicKey publicKey = substring08 (sha256HexOfString publicKey)
      ∧ (getBucketFromPublicKey publicKey).length = 8
      ∧ (∀ c ∈ (getBucketFromPublicKey publicKey).data, IsHexDigitChar c)
      ∧ getBucketFromPublicKey publicKey = getBucketFromPublicKey publicKey := by
  refine ⟨rfl, ?_, ?_, rfl⟩
  · have h64 : (sha256HexOfString publicKey).data.length = 64 :=
      sha256HexOfString_length publicKey
    show ((sha256HexOfString publicKey).data.take 8).length = 8
    rw [List.length_take, h64]
    norm_num
  · intro c hc
    have hc' : c ∈ (sha256HexOfString publicKey).data := List.mem_of_mem_take hc
    exact mem_hexOfBytes (sha256 (strBytes publicKey)) c hc'

/-- C8: whenever the source token's price is known and non-zero, the Quote
Response exists and its `from.tokens` is the element-wise copy of the
request's `from.tokens` with each entry's amount equal to that entry's weight
(pass-through, not recomputed), the response's networks equal the request's,
and `solver` is the solver's public key. -/
theorem c8_from_tokens_passthrough (pk : String) (prices : List Price) (fees : Nat → ℚ)
    (req : RequestQuote) (ft : RequestToken) (rest : List RequestToken)
    (hft : req.fromSide.tokens = ft :: rest) (p : ℚ)
    (hp : getPriceForAddress prices ft.address = some p) (h0 : p ≠ 0) :
    ∃ resp, processMessage pk prices fees req = .ok (some resp)
      ∧ resp.fromSide.tokens = req.fromSide.tokens.map (fun t => ⟨t.address, t.weight⟩)
      ∧ resp.fromSide.network = req.fromSide.network
      ∧ resp.toSide.network = req.toSide.network
      ∧ resp.solver = pk :=
  ⟨_, processMessage_some pk prices fees req ft rest hft p hp h0, rfl, rfl, rfl, rfl⟩

theorem c8_witness :
    ∃ resp, processMessage "solver" c2prices (fun _ => 0) c2req = .ok (some resp)
      ∧ resp.fromSide.tokens
          = c2req.fromSide.tokens.map (fun t => ⟨t.address, t.weight⟩)
      ∧ resp.fromSide.network = c2req.fromSide.network
      ∧ resp.toSide.network = c2req.toSide.network
      ∧ resp.solver = "solver" :=
  c8_from_tokens_passthrough "solver" c2prices (fun _ => 0) c2req ⟨"0xAAA", 1000⟩ [] rfl
    1 (by with_unfolding_all decide) (by with_unfolding_all decide)

/-- C9: for every underlying random draw in `[0, 1)` the fee returned by
`getRandomFeePercentage` lies in `[0.001, 0.01]`; consequently, when every
destination token is priced with a positive price, the source value and the
weights are non-negative, and all draws lie in `[0, 1)`, each destination
token's final amount lies between `destQuantity · (1 − 0.01)` and
`destQuantity · (1 − 0.001)` where
`destQuantity = sourceValue · weight / 100 / destPrice`. -/
theorem c9_fee_and_amount_bounds :
    (∀ r : ℚ, 0 ≤ r → r < 1 →
      minFee ≤ getRandomFeePercentage r ∧ getRandomFeePercentage r ≤ maxFee)
    ∧ (∀ (toTokens : List RequestToken) (fromUSD : ℚ) (prices : List Price)
        (rands : Nat → ℚ) (k i : Nat) (t : RequestToken),
      toTokens[i]? = some t →
      (∀ u ∈ toTokens, ∃ p, getPriceForAddress prices u.address = some p ∧ 0 < p) →
      0 ≤ fromUSD → 0 ≤ t.weight →
      (∀ n, 0 ≤ rands n ∧ rands n < 1) →
      ∃ amt, (computeUpdatedToTokens toTokens fromUSD prices
            (fun n => getRandomFeePercentage (rands n)) k)[i]? = some ⟨t.address, amt⟩
        ∧ fromUSD * t.weight / 100 / ((getPriceForAddress prices t.address).getD 0)
            * (1 - maxFee) ≤ amt
        ∧ amt ≤ fromUSD * t.weight / 100
            / ((getPriceForAddress prices t.address).getD 0) * (1 - minFee)) := by
  refine ⟨getRandomFeePercentage_bounds, ?_⟩
  intro toTokens fromUSD prices rands k i t ht hall hU hw hr
  have hall' : ∀ u ∈ toTokens,
      ∃ p, getPriceForAddress prices u.address = some p ∧ p ≠ 0 := by
    intro u hu
    obtain ⟨p, hp, h0⟩ := hall u hu
    exact ⟨p, hp, ne_of_gt h0⟩
  have hElem := computeUpdatedToTokens_getElem toTokens fromUSD prices
    (fun n => getRandomFeePercentage (rands n)) k hall' i t ht
  have htmem : t ∈ toTokens := by
    obtain ⟨hlt, hEq⟩ := List.getElem?_eq_some_iff.1 ht
    exact hEq ▸ List.getElem_mem hlt
  obtain ⟨p, hp, hppos⟩ := hall t htmem
  have hq0 : 0 ≤ fromUSD * t.weight / 100 / ((getPriceForAddress prices t.address).getD 0) := by
    rw [hp]
    have : (0 : ℚ) ≤ fromUSD * t.weight / 100 := by positivity
    exact div_nonneg this (le_of_lt hppos)
  obtain ⟨hlo, hhi⟩ := getRandomFeePercentage_bounds (rands (k + i)) (hr (k + i)).1 (hr (k + i)).2
  refine ⟨_, hElem, ?_, ?_⟩
  · exact mul_le_mul_of_nonneg_left (by linarith) hq0
  · exact mul_le_mul_of_nonneg_left (by linarith) hq0

theorem c9_witness :
    (minFee ≤ getRandomFeePercentage 0 ∧ getRandomFeePercentage 0 ≤ maxFee)
      ∧ (∃ amt, (computeUpdatedToTokens [⟨"0xBBB", 100⟩] 1000 [⟨"0xBBB", 1⟩]
            (fun n => getRandomFeePercentage ((fun _ : Nat => (0 : ℚ)) n)) 0)[0]?
              = some ⟨"0xBBB", amt⟩
          ∧ (1000 : ℚ) * 100 / 100 / ((getPriceForAddress [⟨"0xBBB", 1⟩] "0xBBB").getD 0)
              * (1 - maxFee) ≤ amt
          ∧ amt ≤ (1000 : ℚ) * 100 / 100
              / ((getPriceForAddress [⟨"0xBBB", 1⟩] "0xBBB").getD 0) * (1 - minFee)) :=
  ⟨c9_fee_and_amount_bounds.1 0 (by norm_num) (by norm_num),
    c9_fee_and_amount_bounds.2 [⟨"0xBBB", 100⟩] 1000 [⟨"0xBBB", 1⟩] (fun _ => 0) 0 0
      ⟨"0xBBB", 100⟩ (by with_unfolding_all decide)
      (by
        intro u hu
        simp only [List.mem_cons, List.not_mem_nil, or_false] at hu
        subst hu
        exact ⟨1, by with_unfolding_all decide, by norm_num⟩)
      (by norm_num) (by norm_num)
      (fun n => ⟨le_refl 0, by norm_num⟩)⟩

/-- C10: a price that is present in the list but equal to `0` is treated like
a missing price, because the source checks are falsy checks rather than
presence checks: a destination token priced `0` yields response amount `0`,
and a source token priced `0` makes `processMessage` produce no Quote
Response. -/
theorem c10_zero_price_treated_as_missing :
    (∀ (toTokens : List RequestToken) (fromUSD : ℚ) (prices : List Price)
        (fees : Nat → ℚ) (k i : Nat) (t : RequestToken),
      toTokens[i]? = some t →
      getPriceForAddress prices t.address = some 0 →
      (computeUpdatedToTokens toTokens fromUSD prices fees k)[i]? = some ⟨t.address, 0⟩)
    ∧ (∀ (pk : String) (prices : List Price) (fees : Nat → ℚ) (req : RequestQuote)
        (ft : RequestToken) (rest : List RequestToken),
      req.fromSide.tokens = ft :: rest →
      getPriceForAddress prices ft.address = some 0 →
      processMessage pk prices fees req = .ok none) :=
  ⟨fun toTokens fromUSD prices fees k i t ht hp =>
      (computeUpdatedToTokens_falsy toTokens fromUSD prices fees k i t ht (Or.inr hp)).1,
    fun pk prices fees req ft rest hft hp =>
      processMessage_none_zero pk prices fees req ft rest hft hp⟩

theorem c10_witness :
    (computeUpdatedToTokens [⟨"0xBBB", 30⟩] 1000 [⟨"0xBBB", 0⟩] (fun _ => 0) 0)[0]?
        = some ⟨"0xBBB", 0⟩
      ∧ processMessage "solver" [⟨"0xAAA", 0⟩] (fun _ => 0) c2req = .ok none :=
  ⟨c10_zero_price_treated_as_missing.1 [⟨"0xBBB", 30⟩] 1000 [⟨"0xBBB", 0⟩] (fun _ => 0)
      0 0 ⟨"0xBBB", 30⟩ (by decide) (by with_unfolding_all decide),
    c10_zero_price_treated_as_missing.2 "solver" [⟨"0xAAA", 0⟩] (fun _ => 0) c2req
      ⟨"0xAAA", 1000⟩ [] rfl (by with_unfolding_all decide)⟩

end Rfq
